import Mathlib

/-!
Verification development for the gournal blog engine.

The Go sources embedded here are `article/article.go` (the slug generator
and the flat-file JSON article store) and `main.go` (the HTTP handlers).
Strings are modelled as Lean `String` / `List Char`; the store directory is
modelled as a list of directory entries (file name, modification time,
content); the `encoding/json` library is abstracted by a `FileData` type
that distinguishes a marshalled article, the JSON literal `null`, and
content that fails to unmarshal.
-/

/-! ### Slug generator (article.go, `Slugify`) -/

/-- Character class of the regex `[^a-z0-9 -]`: a character is kept by
`ReplaceAllString(slug, "")` exactly when it is a lowercase ASCII letter
(codepoints 97-122), an ASCII digit (48-57), a space or a hyphen. -/
def isSlugChar (c : Char) : Bool :=
  decide (97 ≤ c.toNat ∧ c.toNat ≤ 122) || decide (48 ≤ c.toNat ∧ c.toNat ≤ 57) ||
    (c == ' ') || (c == '-')

/-- The class matched by the regex `" +"` (a single kind of character). -/
def isSpaceChar (c : Char) : Bool := c == ' '

/-- The class matched by the regex `"-+"`. -/
def isHyphenChar (c : Char) : Bool := c == '-'

/-- The cutset `" -"` of `strings.Trim(slug, " -")`. -/
def isTrimChar (c : Char) : Bool := (c == ' ') || (c == '-')

/-- Model of Go `strings.ToLower` applied to one rune.  ASCII uppercase
(65-90) maps down by 32.  Of all non-ASCII runes, exactly two have a Unicode
lowercase mapping that lands inside the slug class `[a-z0-9 -]`:
U+0130 (Latin capital I with dot above, lowercase `i`) and U+212A (Kelvin
sign, lowercase `k`); they are mapped explicitly.  Every other rune is left
unchanged; Go may lowercase it differently, but both the Go image and this
one then lie outside `[a-z0-9 -]` and are removed by the following filter,
so `Slugify` below agrees with the Go function on every input string. -/
def goToLower (c : Char) : Char :=
  if 65 ≤ c.toNat ∧ c.toNat ≤ 90 then Char.ofNat (c.toNat + 32)
  else if c.toNat = 0x130 then 'i'
  else if c.toNat = 0x212A then 'k'
  else c

/-- Model of `regexp.MustCompile("X+").ReplaceAllString(s, r)` for a
single-character class `X` (given as the predicate `p`): each maximal
nonempty run of characters satisfying `p` is replaced by the single
character `r` (leftmost-longest matching).  Structural formulation: inside a
run the leading character is dropped until the run's last character, which
is replaced by `r`. -/
def collapseRuns (p : Char → Bool) (r : Char) : List Char → List Char
  | [] => []
  | [c] => if p c then [r] else [c]
  | c :: c2 :: cs =>
    if p c then
      if p c2 then collapseRuns p r (c2 :: cs)
      else r :: collapseRuns p r (c2 :: cs)
    else c :: collapseRuns p r (c2 :: cs)

/-- Model of `strings.Trim(l, " -")`: remove the maximal leading and
trailing segments of characters from the cutset. -/
def goTrim (l : List Char) : List Char :=
  ((l.dropWhile isTrimChar).reverse.dropWhile isTrimChar).reverse

/-- `Slugify` from article.go, over the rune sequence of the title:
lowercase, delete everything outside `[a-z0-9 -]`, replace each space run
by one hyphen, collapse hyphen runs, trim spaces and hyphens at both
ends. -/
def Slugify (title : List Char) : List Char :=
  goTrim (collapseRuns isHyphenChar '-'
    (collapseRuns isSpaceChar '-' ((title.map goToLower).filter isSlugChar)))

/-- `Slugify` packaged on `String`, as the Go function is. -/
def SlugifyStr (title : String) : String := String.mk (Slugify title.data)

/-! ### Spec-side description of the slug generator (for the refinement
part of claim C1).  `collapseRunsSpec` follows the spec's words directly:
"runs of spaces collapsed to single hyphens" — a run is replaced by one `r`
where it starts, and the rest of the run is skipped. -/

def collapseRunsSpec (p : Char → Bool) (r : Char) : List Char → List Char
  | [] => []
  | c :: cs =>
    if p c then r :: collapseRunsSpec p r (cs.dropWhile p)
    else c :: collapseRunsSpec p r cs
termination_by l => l.length
decreasing_by
  · simp only [List.length_cons]
    exact Nat.lt_succ_of_le (List.dropWhile_sublist p).length_le
  · simp

/-- The spec's pipeline for the slug generator, assembled from
`collapseRunsSpec`. -/
def slugifySpec (title : List Char) : List Char :=
  goTrim (collapseRunsSpec isHyphenChar '-'
    (collapseRunsSpec isSpaceChar '-' ((title.map goToLower).filter isSlugChar)))

/-- Letters whose image under `goToLower` can reach the slug class: the
ASCII letters plus the two non-ASCII codepoints U+0130 and U+212A whose
Unicode lowercase is an ASCII letter. -/
def isLetterLike (c : Char) : Bool :=
  decide (65 ≤ c.toNat ∧ c.toNat ≤ 90) || decide (97 ≤ c.toNat ∧ c.toNat ≤ 122) ||
    decide (c.toNat = 0x130) || decide (c.toNat = 0x212A)

/-- ASCII digits. -/
def isDigitChar (c : Char) : Bool := decide (48 ≤ c.toNat ∧ c.toNat ≤ 57)

example : SlugifyStr "Hello, World!" = "hello-world" := by decide
example : SlugifyStr "a   b" = "a-b" := by decide
example : SlugifyStr "" = "" := by decide
example : SlugifyStr "  --  " = "" := by decide
example : SlugifyStr " A--B c " = "a-b-c" := by decide

/-! ### Article store (article.go)

The store directory `Dir = "./articles/"` is modelled as a list of
directory entries; every path the Go code touches has the constant prefix
`Dir`, so entry names carry only the part after it (`<slug>.json`).  A
`DirEntry` records the file name, its modification time (abstract clock)
and its content. -/

/-- `type Article struct { Title, Body, Slug string }`. -/
structure Article where
  Title : String
  Body : String
  Slug : String
deriving DecidableEq

/-- Abstraction of a stored file's bytes, by how `json.Unmarshal` into a
`*Article` treats them: `json a` is the output of `json.Marshal` on the
article `a` (unmarshals to `a`); `jsonNull` is the JSON literal `null`
(unmarshals without error but leaves the pointer nil); `malformed` is any
content on which unmarshalling fails. -/
inductive FileData where
  | json (a : Article)
  | jsonNull
  | malformed (raw : String)
deriving DecidableEq

/-- A file of the store directory: name (relative to `Dir`), modification
time, content. -/
structure DirEntry where
  name : String
  mtime : Nat
  data : FileData
deriving DecidableEq

/-- The Go error values that the embedded code can observe. -/
inductive GoError where
  | fileNotFound (path : String)
  | unmarshalError
  | dirError
  | ioError
deriving DecidableEq

/-- `err.Error()`: the message string of each error. -/
def GoError.msg : GoError → String
  | .fileNotFound p => "open ./articles/" ++ p ++ ": no such file or directory"
  | .unmarshalError => "invalid character looking for beginning of value"
  | .dirError => "open ./articles/: no such file or directory"
  | .ioError => "permission denied"

/-- `ioutil.ReadFile(Dir + path)`: the content of the named file, or a
not-found error when no such file exists. -/
def readFile (d : List DirEntry) (path : String) : Except GoError FileData :=
  match d.find? (fun e => e.name == path) with
  | some e => Except.ok e.data
  | none => Except.error (GoError.fileNotFound path)

/-- `json.Unmarshal(b, &a)` for `a : *Article` (see `FileData`). -/
def unmarshalArticle : FileData → Except GoError (Option Article)
  | FileData.json a => Except.ok (some a)
  | FileData.jsonNull => Except.ok none
  | FileData.malformed _ => Except.error GoError.unmarshalError

/-- `Load` from article.go: read `Dir + slug + ".json"`, unmarshal.  The
result is an `Option Article` because the Go function returns a possibly
nil `*Article` together with a nil error (the `jsonNull` case). -/
def Load (d : List DirEntry) (slug : String) : Except GoError (Option Article) :=
  match readFile d (slug ++ ".json") with
  | Except.error e => Except.error e
  | Except.ok b => unmarshalArticle b

/-- `ioutil.WriteFile(Dir + path, b, 0600)` on a writable directory:
overwrite the file of that name if present (refreshing its modification
time), otherwise create it. -/
def writeFile (d : List DirEntry) (path : String) (b : FileData) (now : Nat) :
    List DirEntry :=
  if d.any (fun e => e.name == path) then
    d.map (fun e => if e.name == path then ⟨path, now, b⟩ else e)
  else d ++ [⟨path, now, b⟩]

/-- `(a *Article) Save()`: marshal and write to `Dir + a.Slug + ".json"`.
`json.Marshal` never fails on a struct of three strings, so the only
failure is the I/O one, modelled by the `writable` flag. -/
def save (writable : Bool) (d : List DirEntry) (a : Article) (now : Nat) :
    Except GoError (List DirEntry) :=
  if writable then
    Except.ok (writeFile d (a.Slug ++ ".json") (FileData.json a) now)
  else Except.error GoError.ioError

/-- `New(title, body)` from article.go. -/
def New (title body : String) : Article :=
  { Title := title, Body := body, Slug := SlugifyStr title }

/-- `byLatestDate.Less i j = f[i].ModTime().After(f[j].ModTime())`:
the sort order puts later modification times first.  As the total preorder
handed to the sorting algorithm: `e` may precede `f` iff `f.mtime ≤ e.mtime`. -/
def latestRel (e f : DirEntry) : Prop := f.mtime ≤ e.mtime

instance : DecidableRel latestRel := fun e f => Nat.decLe f.mtime e.mtime

instance : IsTotal DirEntry latestRel :=
  ⟨fun a b => (Nat.le_total b.mtime a.mtime).imp id id⟩

instance : IsTrans DirEntry latestRel :=
  ⟨fun _ _ _ hab hbc => Nat.le_trans hbc hab⟩

/-- `sort.Sort(byLatestDate(files))`.  Go's sort is unstable, so any
permutation that is nonincreasing in modification time is a faithful
image; we fix insertion sort as the model.  (`ioutil.ReadDir` returns the
listing sorted by file name; `entries` stands for that listing.) -/
def sortByLatest (l : List DirEntry) : List DirEntry := List.insertionSort latestRel l

/-- `f.Name()[:len(f.Name())-len(".json")]` — drop the last five
characters of the file name.  (Go slices bytes and panics when the name is
shorter than five bytes; this model, `String.take`, counts characters and
truncates instead, so theorems quantifying over directories carry the
hypothesis that every name has at least five characters, and names are
taken to be ASCII.) -/
def stripJson (s : String) : String := s.take (s.length - 5)

/-- The load performed by `All` for one directory entry. -/
def loadResult (d : List DirEntry) (f : DirEntry) : Except GoError (Option Article) :=
  Load d (stripJson f.name)

/-- The article value of a successful load (`none` stands for the nil
pointer; the default is irrelevant, it is only read on successes). -/
def valueOr (x : Except GoError (Option Article)) : Option Article :=
  match x with
  | Except.ok a => a
  | Except.error _ => none

/-- The loop of `All`: load each file of the (sorted) listing in order,
aborting with the first error (`return nil, err`). -/
def allLoop (d : List DirEntry) : List DirEntry → Except GoError (List (Option Article))
  | [] => Except.ok []
  | f :: fs =>
    match loadResult d f with
    | Except.error e => Except.error e
    | Except.ok a =>
      match allLoop d fs with
      | Except.error e => Except.error e
      | Except.ok as => Except.ok (a :: as)

/-- The state of the store directory as `ioutil.ReadDir(Dir)` sees it:
either unreadable (the readdir call errors) or a listing of entries. -/
inductive DirState where
  | unreadable
  | readable (entries : List DirEntry)

/-- `All` from article.go: read the directory, sort by latest modification
time, load every file in that order. -/
def All : DirState → Except GoError (List (Option Article))
  | DirState.unreadable => Except.error GoError.dirError
  | DirState.readable entries => allLoop entries (sortByLatest entries)

/-! ### HTTP handlers (main.go)

A handler's observable behaviour is the sequence of writes it performs on
the `http.ResponseWriter` (plus the new store state for the writing
handlers).  `wpanic` marks a nil-pointer dereference (a Go runtime panic;
`net/http` recovers it, the request produces no normal response).
Rendering a template is modelled as one write carrying the template name's
data; template files are external and assumed present. -/

inductive HttpWrite where
  | werror (msg : String) (code : Nat)
  | wnotfound
  | wredirect (loc : String) (code : Nat)
  | wrenderHome (articles : List (Option Article))
  | wrenderShow (a : Option Article)
  | wrenderEdit (a : Option Article)
  | wrenderNew
  | wpanic
deriving DecidableEq

instance {ε α : Type} [DecidableEq ε] [DecidableEq α] : DecidableEq (Except ε α) := fun x y =>
  match x, y with
  | Except.ok a, Except.ok b =>
    if h : a = b then isTrue (h ▸ rfl) else isFalse fun he => h (Except.ok.inj he)
  | Except.ok _, Except.error _ => isFalse fun he => Except.noConfusion he
  | Except.error _, Except.ok _ => isFalse fun he => Except.noConfusion he
  | Except.error e, Except.error f =>
    if h : e = f then isTrue (h ▸ rfl) else isFalse fun he => h (Except.error.inj he)

/-- `HomeHandler`: `article.All()`; on error `http.Error(w, msg, 500)`
with NO `return`, after which control falls through and the home template
is rendered anyway (with the nil list). -/
def HomeHandler (st : DirState) : List HttpWrite :=
  match All st with
  | Except.error e => [HttpWrite.werror e.msg 500, HttpWrite.wrenderHome []]
  | Except.ok as => [HttpWrite.wrenderHome as]

/-- `NewArticleHandler`: render the creation form. -/
def NewArticleHandler : List HttpWrite := [HttpWrite.wrenderNew]

/-- `CreateArticleHandler`: build the article from the form fields, save;
500 and return on save error, else redirect 302 to `/articles/<slug>`. -/
def CreateArticleHandler (writable : Bool) (d : List DirEntry) (title body : String)
    (now : Nat) : List HttpWrite × List DirEntry :=
  let a := New title body
  match save writable d a now with
  | Except.error e => ([HttpWrite.werror e.msg 500], d)
  | Except.ok d2 => ([HttpWrite.wredirect ("/articles/" ++ a.Slug) 302], d2)

/-- `ShowArticleHandler`: load by the `{title}` route variable; on ANY
load error `http.NotFound` (404) and return, else render the article. -/
def ShowArticleHandler (d : List DirEntry) (slugParam : String) : List HttpWrite :=
  match Load d slugParam with
  | Except.error _ => [HttpWrite.wnotfound]
  | Except.ok a => [HttpWrite.wrenderShow a]

/-- `EditArticleHandler`: same shape as `ShowArticleHandler`, rendering
the edit form. -/
def EditArticleHandler (d : List DirEntry) (slugParam : String) : List HttpWrite :=
  match Load d slugParam with
  | Except.error _ => [HttpWrite.wnotfound]
  | Except.ok a => [HttpWrite.wrenderEdit a]

/-- `UpdateArticleHandler`: load by the `{title}` route variable; on ANY
load error `http.Error(..., 500)` and return.  Then `a.Title = ...` —
which dereferences a nil pointer (panic) when `Load` returned nil with a
nil error — then save (500 on error) and redirect 302 to
`/articles/<a.Slug>` with the slug field the load returned. -/
def UpdateArticleHandler (writable : Bool) (d : List DirEntry)
    (slugParam title body : String) (now : Nat) : List HttpWrite × List DirEntry :=
  match Load d slugParam with
  | Except.error e => ([HttpWrite.werror e.msg 500], d)
  | Except.ok none => ([HttpWrite.wpanic], d)
  | Except.ok (some a) =>
    let a2 : Article := { a with Title := title, Body := body }
    match save writable d a2 now with
    | Except.error e => ([HttpWrite.werror e.msg 500], d)
    | Except.ok d2 => ([HttpWrite.wredirect ("/articles/" ++ a2.Slug) 302], d2)

/-! ### Lemmas on run collapsing -/

/-- The structural `collapseRuns` coincides with the spec-worded
`collapseRunsSpec`. -/
theorem collapseRuns_eq_spec (p : Char → Bool) (r : Char) :
    ∀ l, collapseRuns p r l = collapseRunsSpec p r l
  | [] => by simp [collapseRuns, collapseRunsSpec]
  | [c] => by
    by_cases h : p c <;>
      simp [collapseRuns, collapseRunsSpec, h, List.dropWhile]
  | c :: c2 :: cs => by
    have ih := collapseRuns_eq_spec p r (c2 :: cs)
    by_cases h : p c
    · by_cases h2 : p c2
      · rw [collapseRuns, if_pos h, if_pos h2, ih]
        conv_rhs => rw [collapseRunsSpec]
        rw [if_pos h, List.dropWhile_cons, if_pos h2]
        conv_lhs => rw [collapseRunsSpec]
        rw [if_pos h2]
      · rw [collapseRuns, if_pos h, if_neg h2, ih]
        conv_rhs => rw [collapseRunsSpec]
        rw [if_pos h, List.dropWhile_cons, if_neg h2]
    · rw [collapseRuns, if_neg h, ih]
      conv_rhs => rw [collapseRunsSpec]
      rw [if_neg h]

/-- Characters outside every slug-relevant class stay outside the slug
class after `goToLower`. -/
theorem isSlugChar_goToLower_eq_false (c : Char)
    (h1 : isLetterLike c = false) (h2 : isDigitChar c = false)
    (h3 : isSpaceChar c = false) (h4 : isHyphenChar c = false) :
    isSlugChar (goToLower c) = false := by
  simp only [isLetterLike, Bool.or_eq_false_iff, decide_eq_false_iff_not] at h1
  obtain ⟨⟨⟨hu, hl⟩, hd⟩, hk⟩ := h1
  simp only [isDigitChar, decide_eq_false_iff_not] at h2
  have hg : goToLower c = c := by
    unfold goToLower
    rw [if_neg hu, if_neg hd, if_neg hk]
  rw [hg]
  simp only [isSlugChar, isSpaceChar] at h3 ⊢
  simp only [isHyphenChar] at h4
  rw [h3, h4]
  simp only [Bool.or_false, Bool.or_eq_false_iff, decide_eq_false_iff_not]
  exact ⟨hl, h2⟩

/-- C1: `Slugify` realizes the spec's pipeline (lowercase, restrict to
`[a-z0-9 -]`, space runs to single hyphens, hyphen runs collapsed, ends
trimmed), is deterministic, maps "Hello, World!" to "hello-world" and
"a   b" to "a-b", and maps every title containing no letters, digits,
spaces or hyphens to the empty slug. -/
theorem C1_slugify_spec :
    (∀ t, Slugify t = slugifySpec t)
    ∧ (∀ s t : String, s = t → SlugifyStr s = SlugifyStr t)
    ∧ SlugifyStr "Hello, World!" = "hello-world"
    ∧ SlugifyStr "a   b" = "a-b"
    ∧ (∀ t : List Char,
        (∀ c ∈ t, isLetterLike c = false ∧ isDigitChar c = false ∧
          isSpaceChar c = false ∧ isHyphenChar c = false) →
        Slugify t = []) := by
  refine ⟨?_, ?_, by decide, by decide, ?_⟩
  · intro t
    unfold Slugify slugifySpec
    rw [collapseRuns_eq_spec, collapseRuns_eq_spec]
  · intro s t h
    rw [h]
  · intro t ht
    unfold Slugify
    have hf : (t.map goToLower).filter isSlugChar = [] := by
      rw [List.filter_eq_nil_iff]
      intro a ha
      rw [List.mem_map] at ha
      obtain ⟨c, hc, rfl⟩ := ha
      obtain ⟨u1, u2, u3, u4⟩ := ht c hc
      simp [isSlugChar_goToLower_eq_false c u1 u2 u3 u4]
    rw [hf]
    rfl

/-- Witness for C1: the hypotheses are discharged at `"abc"` (determinism)
and at the punctuation-only title `"?!."`. -/
theorem C1_slugify_spec_witness :
    SlugifyStr "abc" = SlugifyStr "abc" ∧ Slugify ("?!.".data) = [] :=
  ⟨C1_slugify_spec.2.1 "abc" "abc" rfl,
   C1_slugify_spec.2.2.2.2 ("?!.".data) (by decide)⟩

/-! ### Lemmas on the file store -/

/-- Reading back the file just written yields its content. -/
theorem readFile_writeFile_self (d : List DirEntry) (path : String) (b : FileData)
    (now : Nat) : readFile (writeFile d path b now) path = Except.ok b := by
  induction d with
  | nil => simp [writeFile, readFile]
  | cons e d ih =>
    by_cases he : e.name = path
    · simp [writeFile, readFile, he]
    · have he2 : (e.name == path) = false := by simp [he]
      cases hd : d.any (fun x => x.name == path) with
      | true =>
        have hw : writeFile d path b now
            = d.map (fun x => if x.name == path then ⟨path, now, b⟩ else x) := by
          simp [writeFile, hd]
        rw [hw] at ih
        simp only [writeFile, List.any_cons, he2, Bool.false_or, hd, if_true,
          List.map_cons, he2, Bool.false_eq_true, if_false]
        simpa [readFile, List.find?_cons, he2] using ih
      | false =>
        have hw : writeFile d path b now = d ++ [⟨path, now, b⟩] := by
          simp [writeFile, hd]
        rw [hw] at ih
        simp only [writeFile, List.any_cons, he2, Bool.false_or, hd,
          Bool.false_eq_true, if_false, List.cons_append]
        simpa [readFile, List.find?_cons, he2] using ih

/-- The rewrite step of `writeFile` is invisible to lookups of any other
name. -/
theorem find?_update_ne (path q : String) (b : FileData) (now : Nat) (hq : q ≠ path) :
    ∀ l : List DirEntry,
      (l.map (fun x => if x.name == path then ⟨path, now, b⟩ else x)).find?
          (fun e => e.name == q)
        = l.find? (fun e => e.name == q)
  | [] => rfl
  | e :: l => by
    have hrec := find?_update_ne path q b now hq l
    have h4 : (path == q) = false := beq_eq_false_iff_ne.mpr fun h => hq h.symm
    by_cases he : e.name = path
    · have h1 : (e.name == path) = true := beq_iff_eq.mpr he
      have h3 : (e.name == q) = false := by rw [he]; exact h4
      simp only [List.map_cons, List.find?_cons, if_pos h1]
      have h5 : ((⟨path, now, b⟩ : DirEntry).name == q) = false := h4
      rw [h5, h3, hrec]
    · have h1 : ¬((e.name == path) = true) := by
        intro hc
        exact he (beq_iff_eq.mp hc)
      simp only [List.map_cons, List.find?_cons, if_neg h1]
      rw [hrec]

/-- Writing one file leaves every other file unchanged. -/
theorem readFile_writeFile_ne (d : List DirEntry) (path q : String) (b : FileData)
    (now : Nat) (hq : q ≠ path) :
    readFile (writeFile d path b now) q = readFile d q := by
  unfold writeFile
  by_cases hd : d.any (fun e => e.name == path)
  · rw [if_pos hd]
    unfold readFile
    rw [find?_update_ne path q b now hq d]
  · rw [if_neg hd]
    unfold readFile
    rw [List.find?_append]
    have h3 : List.find? (fun e => e.name == q) [(⟨path, now, b⟩ : DirEntry)] = none := by
      have h4 : (path == q) = false := beq_eq_false_iff_ne.mpr fun h => hq h.symm
      have h5 : ((⟨path, now, b⟩ : DirEntry).name == q) = false := h4
      rw [List.find?_cons, h5]
      rfl
    rw [h3]
    cases List.find? (fun e => e.name == q) d <;> rfl

/-- C2: when `Save` succeeds, `Load` on the saved article's slug succeeds
and returns an article equal to the saved one (in particular equal in
Title and Body). -/
theorem C2_save_load_roundtrip :
    ∀ (writable : Bool) (d : List DirEntry) (a : Article) (now : Nat)
      (d2 : List DirEntry),
      save writable d a now = Except.ok d2 →
      Load d2 a.Slug = Except.ok (some a) := by
  intro w d a now d2 hs
  cases w with
  | false => simp [save] at hs
  | true =>
    simp only [save, if_true] at hs
    cases hs
    unfold Load
    rw [readFile_writeFile_self]
    rfl

/-- Witness for C2 at a concrete article and an empty store. -/
theorem C2_save_load_roundtrip_witness :
    Load [⟨"hi.json", 3, FileData.json ⟨"Hi", "there", "hi"⟩⟩] "hi"
      = Except.ok (some ⟨"Hi", "there", "hi"⟩) :=
  C2_save_load_roundtrip true [] ⟨"Hi", "there", "hi"⟩ 3
    [⟨"hi.json", 3, FileData.json ⟨"Hi", "there", "hi"⟩⟩] (by decide)

/-- C6: loading an absent slug returns the not-found error (no crash);
loading a file whose content fails to parse returns the parse error. -/
theorem C6_load_errors :
    (∀ (d : List DirEntry) (slug : String),
      d.find? (fun e => e.name == slug ++ ".json") = none →
      Load d slug = Except.error (GoError.fileNotFound (slug ++ ".json")))
    ∧ (∀ (d : List DirEntry) (slug raw : String),
      readFile d (slug ++ ".json") = Except.ok (FileData.malformed raw) →
      Load d slug = Except.error GoError.unmarshalError) := by
  constructor
  · intro d slug h
    simp [Load, readFile, h]
  · intro d slug raw h
    simp [Load, h, unmarshalArticle]

/-- Witness for C6: an empty store and a store with one malformed file. -/
theorem C6_load_errors_witness :
    Load [] "nope" = Except.error (GoError.fileNotFound ("nope" ++ ".json"))
    ∧ Load [⟨"bad.json", 0, FileData.malformed "not json"⟩] "bad"
      = Except.error GoError.unmarshalError :=
  ⟨C6_load_errors.1 [] "nope" (by decide),
   C6_load_errors.2 [⟨"bad.json", 0, FileData.malformed "not json"⟩] "bad"
     "not json" (by decide)⟩

/-- C7: creating with an empty title is not an error: the article gets the
empty slug, is saved as `.json`, and the response is a 302 redirect to
`/articles/`; in general a successful create redirects 302 to
`/articles/<slug of the title>`, and a save failure yields a 500. -/
theorem C7_create_article :
    (∀ (d : List DirEntry) (body : String) (now : Nat),
      CreateArticleHandler true d "" body now =
        ([HttpWrite.wredirect "/articles/" 302],
         writeFile d ".json" (FileData.json ⟨"", body, ""⟩) now))
    ∧ (∀ (d : List DirEntry) (title body : String) (now : Nat),
      (CreateArticleHandler true d title body now).1 =
        [HttpWrite.wredirect ("/articles/" ++ SlugifyStr title) 302])
    ∧ (∀ (d : List DirEntry) (title body : String) (now : Nat),
      (CreateArticleHandler false d title body now).1 =
        [HttpWrite.werror GoError.ioError.msg 500]) := by
  have hempty : SlugifyStr "" = "" := rfl
  refine ⟨?_, ?_, ?_⟩
  · intro d body now
    simp [CreateArticleHandler, New, save, hempty, String.append_empty,
      String.empty_append]
  · intro d title body now
    simp [CreateArticleHandler, New, save]
  · intro d title body now
    simp [CreateArticleHandler, New, save]

/-- C8 (code bug): on `GET /` with an unlistable store directory the
handler writes the 500 error and then, lacking a `return`, ALSO renders
the home page into the same response — the trace is not just the error. -/
theorem C8_home_error_fallthrough :
    HomeHandler DirState.unreadable =
      [HttpWrite.werror GoError.dirError.msg 500, HttpWrite.wrenderHome []]
    ∧ HomeHandler DirState.unreadable ≠ [HttpWrite.werror GoError.dirError.msg 500] := by
  constructor
  · rfl
  · intro h
    exact absurd (congrArg List.length h) (by decide)

/-- C10: the stored content `null` makes `Load` return a nil article and a
nil error, and the update handler, treating the nil error as success, then
dereferences the nil pointer (panic). -/
theorem C10_load_null_nil :
    Load [⟨"x.json", 0, FileData.jsonNull⟩] "x" = Except.ok none
    ∧ UpdateArticleHandler true [⟨"x.json", 0, FileData.jsonNull⟩] "x" "t" "b" 1
      = ([HttpWrite.wpanic], [⟨"x.json", 0, FileData.jsonNull⟩]) := by
  constructor
  · decide
  · decide

/-- Counterexample to C5 as stated: a load failure from an ABSENT file on
the PUT update route yields a 500 (not the claimed 404), and a load
failure from MALFORMED stored JSON on the GET show route yields a 404 (not
the claimed 500). -/
theorem C5_status_mapping_cex :
    Load [] "missing" = Except.error (GoError.fileNotFound ("missing" ++ ".json"))
    ∧ (UpdateArticleHandler true [] "missing" "t" "b" 0).1
      = [HttpWrite.werror (GoError.fileNotFound ("missing" ++ ".json")).msg 500]
    ∧ HttpWrite.werror (GoError.fileNotFound ("missing" ++ ".json")).msg 500
      ≠ HttpWrite.wnotfound
    ∧ ShowArticleHandler [⟨"bad.json", 0, FileData.malformed "no json here"⟩] "bad"
      = [HttpWrite.wnotfound]
    ∧ ([HttpWrite.wnotfound] : List HttpWrite)
      ≠ [HttpWrite.werror GoError.unmarshalError.msg 500] := by
  refine ⟨by decide, by decide, by decide, by decide, by decide⟩

/-- C5 amended: the GET show and GET edit routes answer 404 to EVERY load
failure (absent file or malformed JSON alike), and the PUT update route
answers 500 with the error message to EVERY load failure. -/
theorem C5_status_mapping_amended :
    ∀ (d : List DirEntry) (slug : String) (e : GoError),
      Load d slug = Except.error e →
      ShowArticleHandler d slug = [HttpWrite.wnotfound]
      ∧ EditArticleHandler d slug = [HttpWrite.wnotfound]
      ∧ (∀ (w : Bool) (title body : String) (now : Nat),
          (UpdateArticleHandler w d slug title body now).1
            = [HttpWrite.werror e.msg 500]) := by
  intro d slug e h
  refine ⟨?_, ?_, ?_⟩
  · simp [ShowArticleHandler, h]
  · simp [EditArticleHandler, h]
  · intro w title body now
    simp [UpdateArticleHandler, h]

/-- Witness for the amended C5 at an empty store. -/
theorem C5_status_mapping_witness :
    ShowArticleHandler [] "gone" = [HttpWrite.wnotfound]
    ∧ EditArticleHandler [] "gone" = [HttpWrite.wnotfound]
    ∧ (UpdateArticleHandler true [] "gone" "t" "b" 0).1
        = [HttpWrite.werror (GoError.fileNotFound ("gone" ++ ".json")).msg 500] :=
  have h := C5_status_mapping_amended [] "gone"
    (GoError.fileNotFound ("gone" ++ ".json")) (by decide)
  ⟨h.1, h.2.1, h.2.2 true "t" "b" 0⟩

/-- C4: updating an existing article (whose stored slug matches its file
name, as every article written by this application satisfies) keeps the
slug and the backing file: only Title and Body take the form values, the
write goes to the same `<slug>.json`, every other file is untouched —
whatever the new title would slugify to. -/
theorem C4_update_preserves_slug :
    ∀ (d : List DirEntry) (slug title body : String) (now : Nat) (a : Article),
      Load d slug = Except.ok (some a) →
      a.Slug = slug →
      UpdateArticleHandler true d slug title body now
        = ([HttpWrite.wredirect ("/articles/" ++ slug) 302],
           writeFile d (slug ++ ".json") (FileData.json ⟨title, body, slug⟩) now)
      ∧ Load (writeFile d (slug ++ ".json") (FileData.json ⟨title, body, slug⟩) now) slug
          = Except.ok (some ⟨title, body, slug⟩)
      ∧ (∀ other : String, other ≠ slug →
          Load (writeFile d (slug ++ ".json") (FileData.json ⟨title, body, slug⟩) now)
              other
            = Load d other) := by
  intro d slug title body now a h hslug
  have ha2 : ({ a with Title := title, Body := body } : Article) = ⟨title, body, slug⟩ := by
    cases a
    simp_all
  refine ⟨?_, ?_, ?_⟩
  · simp [UpdateArticleHandler, h, save, ha2, hslug]
  · unfold Load
    rw [readFile_writeFile_self]
    rfl
  · intro other hne
    have hq : (other ++ ".json" : String) ≠ slug ++ ".json" := by
      intro hc
      apply hne
      apply String.ext
      have hd := congrArg String.data hc
      rw [String.data_append, String.data_append] at hd
      exact List.append_cancel_right hd
    unfold Load
    rw [readFile_writeFile_ne _ _ _ _ _ hq]

/-- Witness for C4: a store with one article whose new title would slugify
to a different slug. -/
theorem C4_update_preserves_slug_witness :
    UpdateArticleHandler true [⟨"old.json", 0, FileData.json ⟨"Old", "ob", "old"⟩⟩]
        "old" "New Title" "nb" 5
      = ([HttpWrite.wredirect ("/articles/" ++ "old") 302],
         writeFile [⟨"old.json", 0, FileData.json ⟨"Old", "ob", "old"⟩⟩]
           ("old" ++ ".json") (FileData.json ⟨"New Title", "nb", "old"⟩) 5)
    ∧ SlugifyStr "New Title" ≠ "old" :=
  ⟨(C4_update_preserves_slug [⟨"old.json", 0, FileData.json ⟨"Old", "ob", "old"⟩⟩]
      "old" "New Title" "nb" 5 ⟨"Old", "ob", "old"⟩ (by decide) rfl).1,
   by decide⟩

/-! ### Lemmas on the listing loop -/

/-- When every file of the iterated listing loads, the loop returns
exactly the loaded values in listing order. -/
theorem allLoop_ok (d : List DirEntry) :
    ∀ fs : List DirEntry, (∀ f ∈ fs, (loadResult d f).isOk = true) →
      allLoop d fs = Except.ok (fs.map (fun f => valueOr (loadResult d f)))
  | [], _ => rfl
  | f :: fs, h => by
    have h1 := h f (List.mem_cons_self f fs)
    have ih := allLoop_ok d fs (fun g hg => h g (List.mem_cons_of_mem f hg))
    cases hl : loadResult d f with
    | error e => rw [hl] at h1; exact Bool.noConfusion h1
    | ok a => simp [allLoop, hl, ih, valueOr]

/-- When some file of the iterated listing fails to load, the loop
returns an error (and hence no list at all). -/
theorem allLoop_error (d : List DirEntry) :
    ∀ fs : List DirEntry, ∀ f ∈ fs, (loadResult d f).isOk = false →
      ∃ e, allLoop d fs = Except.error e
  | g :: fs, f, hf, hbad => by
    rcases List.mem_cons.mp hf with rfl | htail
    · cases hl : loadResult d f with
      | error e => exact ⟨e, by simp [allLoop, hl]⟩
      | ok a => rw [hl] at hbad; exact Bool.noConfusion hbad
    · cases hl : loadResult d g with
      | error e => exact ⟨e, by simp [allLoop, hl]⟩
      | ok a =>
        obtain ⟨e, he⟩ := allLoop_error d fs f htail hbad
        exact ⟨e, by simp [allLoop, hl, he]⟩

/-- C3: listing the store puts the most recently modified files first (the
iterated listing is a permutation of the directory, nonincreasing in
modification time — ties are in unspecified order since Go's sort is
unstable); an unlistable directory yields its error; and one failing file
aborts the whole listing with an error, never a partial list.  The
length hypothesis marks the model's fidelity domain: Go's byte slicing
`f.Name()[:len-5]` panics on file names shorter than five bytes. -/
theorem C3_all_sorted_failfast :
    (All DirState.unreadable = Except.error GoError.dirError)
    ∧ (∀ entries : List DirEntry,
        (sortByLatest entries).Perm entries
        ∧ List.Sorted latestRel (sortByLatest entries)
        ∧ All (DirState.readable entries) = allLoop entries (sortByLatest entries))
    ∧ (∀ entries : List DirEntry,
        (∀ f ∈ entries, 5 ≤ f.name.length) →
        (∀ f ∈ entries, (loadResult entries f).isOk = true) →
        All (DirState.readable entries)
          = Except.ok ((sortByLatest entries).map
              (fun f => valueOr (loadResult entries f))))
    ∧ (∀ entries : List DirEntry,
        (∀ f ∈ entries, 5 ≤ f.name.length) →
        ∀ f ∈ entries, (loadResult entries f).isOk = false →
        ∃ e, All (DirState.readable entries) = Except.error e) := by
  refine ⟨rfl, ?_, ?_, ?_⟩
  · intro entries
    exact ⟨List.perm_insertionSort latestRel entries,
      List.sorted_insertionSort latestRel entries, rfl⟩
  · intro entries _ h
    unfold All
    exact allLoop_ok entries (sortByLatest entries)
      (fun f hf => h f ((List.perm_insertionSort latestRel entries).mem_iff.mp hf))
  · intro entries _ f hf hbad
    unfold All
    exact allLoop_error entries (sortByLatest entries) f
      ((List.perm_insertionSort latestRel entries).symm.mem_iff.mp hf) hbad

/-- Witness for C3: a two-file store listed most-recent-first, and a
one-file store whose single malformed file aborts the listing. -/
theorem C3_all_sorted_failfast_witness :
    All (DirState.readable
        [⟨"a.json", 1, FileData.json ⟨"A", "", "a"⟩⟩,
         ⟨"b.json", 2, FileData.json ⟨"B", "", "b"⟩⟩])
      = Except.ok [some ⟨"B", "", "b"⟩, some ⟨"A", "", "a"⟩]
    ∧ (∃ e, All (DirState.readable [⟨"c.json", 0, FileData.malformed "x"⟩])
        = Except.error e) :=
  ⟨(C3_all_sorted_failfast.2.2.1
      [⟨"a.json", 1, FileData.json ⟨"A", "", "a"⟩⟩,
       ⟨"b.json", 2, FileData.json ⟨"B", "", "b"⟩⟩]
      (by decide) (by decide)).trans (by decide),
   C3_all_sorted_failfast.2.2.2 [⟨"c.json", 0, FileData.malformed "x"⟩]
     (by decide) ⟨"c.json", 0, FileData.malformed "x"⟩ (by decide) (by decide)⟩

/-! ### Lemmas towards idempotence of the slug generator -/

/-- Every character of a collapsed list is the replacement character or a
kept (non-matching) character of the input. -/
theorem mem_collapseRuns (p : Char → Bool) (r : Char) :
    ∀ l c, c ∈ collapseRuns p r l → c = r ∨ (c ∈ l ∧ p c = false)
  | [], c, h => by simp [collapseRuns] at h
  | [c0], c, h => by
    by_cases h0 : p c0
    · rw [collapseRuns, if_pos h0] at h
      exact Or.inl (List.mem_singleton.mp h)
    · rw [collapseRuns, if_neg h0] at h
      have hc : c = c0 := List.mem_singleton.mp h
      subst hc
      exact Or.inr ⟨List.mem_singleton_self c, by simpa using h0⟩
  | c0 :: c1 :: cs, c, h => by
    have ih := mem_collapseRuns p r (c1 :: cs)
    by_cases h0 : p c0
    · by_cases h1 : p c1
      · rw [collapseRuns, if_pos h0, if_pos h1] at h
        rcases ih c h with hr | ⟨hm, hp⟩
        · exact Or.inl hr
        · exact Or.inr ⟨List.mem_cons_of_mem c0 hm, hp⟩
      · rw [collapseRuns, if_pos h0, if_neg h1] at h
        rcases List.mem_cons.mp h with rfl | h2
        · exact Or.inl rfl
        · rcases ih c h2 with hr | ⟨hm, hp⟩
          · exact Or.inl hr
          · exact Or.inr ⟨List.mem_cons_of_mem c0 hm, hp⟩
    · rw [collapseRuns, if_neg h0] at h
      rcases List.mem_cons.mp h with rfl | h2
      · exact Or.inr ⟨List.mem_cons_self c (c1 :: cs), by simpa using h0⟩
      · rcases ih c h2 with hr | ⟨hm, hp⟩
        · exact Or.inl hr
        · exact Or.inr ⟨List.mem_cons_of_mem c0 hm, hp⟩

/-- A collapsed list that starts with a kept character keeps it in front. -/
theorem head?_collapseRuns (p : Char → Bool) (r : Char) (c : Char) (cs : List Char)
    (h : ¬(p c = true)) : (collapseRuns p r (c :: cs)).head? = some c := by
  cases cs with
  | nil =>
    rw [collapseRuns, if_neg h]
    rfl
  | cons c2 cs2 =>
    rw [collapseRuns, if_neg h]
    rfl

/-- After collapsing, no two adjacent characters both match `p`. -/
theorem chain_collapseRuns (p : Char → Bool) (r : Char) :
    ∀ l, List.Chain' (fun a b => ¬(p a = true ∧ p b = true)) (collapseRuns p r l)
  | [] => by rw [collapseRuns]; exact List.chain'_nil
  | [c] => by
    by_cases h : p c
    · rw [collapseRuns, if_pos h]; exact List.chain'_singleton r
    · rw [collapseRuns, if_neg h]; exact List.chain'_singleton c
  | c0 :: c1 :: cs => by
    have ih := chain_collapseRuns p r (c1 :: cs)
    by_cases h0 : p c0
    · by_cases h1 : p c1
      · rw [collapseRuns, if_pos h0, if_pos h1]
        exact ih
      · rw [collapseRuns, if_pos h0, if_neg h1]
        rw [List.chain'_cons']
        refine ⟨fun y hy => ?_, ih⟩
        rw [head?_collapseRuns p r c1 cs h1, Option.mem_def] at hy
        injection hy with hy2
        subst hy2
        intro hcon
        exact h1 hcon.2
    · rw [collapseRuns, if_neg h0]
      rw [List.chain'_cons']
      refine ⟨fun y hy => ?_, ih⟩
      intro hcon
      exact h0 hcon.1

/-- Collapsing is the identity on lists without any matching character. -/
theorem collapseRuns_eq_self (p : Char → Bool) (r : Char) :
    ∀ l, (∀ c ∈ l, p c = false) → collapseRuns p r l = l
  | [], _ => rfl
  | [c], h => by
    have h0 := h c (List.mem_singleton_self c)
    rw [collapseRuns, if_neg (by simp [h0])]
  | c0 :: c1 :: cs, h => by
    have ih := collapseRuns_eq_self p r (c1 :: cs)
      (fun c hc => h c (List.mem_cons_of_mem c0 hc))
    have h0 := h c0 (List.mem_cons_self c0 (c1 :: cs))
    rw [collapseRuns, if_neg (by simp [h0]), ih]

/-- Collapsing is the identity when every matching character equals the
replacement character and no two of them are adjacent. -/
theorem collapseRuns_eq_self_of_nodouble (p : Char → Bool) (r : Char)
    (hp : ∀ c, p c = true → c = r) :
    ∀ l, List.Chain' (fun a b => ¬(p a = true ∧ p b = true)) l →
      collapseRuns p r l = l
  | [], _ => rfl
  | [c], _ => by
    by_cases h : p c
    · rw [collapseRuns, if_pos h, hp c h]
    · rw [collapseRuns, if_neg h]
  | c0 :: c1 :: cs, hch => by
    have ih := collapseRuns_eq_self_of_nodouble p r hp (c1 :: cs) hch.tail
    by_cases h0 : p c0
    · have h1 : p c1 = false := by
        have hr := (List.chain'_cons'.mp hch).1 c1 (by rw [Option.mem_def]; rfl)
        cases hc : p c1
        · rfl
        · exact absurd ⟨h0, hc⟩ hr
      rw [collapseRuns, if_pos h0, if_neg (by simp [h1]), ih, hp c0 h0]
    · rw [collapseRuns, if_neg h0, ih]

/-- The head of a `dropWhile` never satisfies the dropped predicate. -/
theorem head?_dropWhile_false (p : Char → Bool) :
    ∀ (l : List Char) (c : Char), (List.dropWhile p l).head? = some c → p c = false
  | [], c, h => by simp [List.dropWhile] at h
  | a :: l, c, h => by
    by_cases ha : p a
    · rw [List.dropWhile_cons, if_pos ha] at h
      exact head?_dropWhile_false p l c h
    · rw [List.dropWhile_cons, if_neg ha] at h
      rw [List.head?_cons] at h
      injection h with h2
      subst h2
      simpa using ha

/-- `dropWhile` keeps the last element of a list, when it keeps anything. -/
theorem getLast?_dropWhile (p : Char → Bool) :
    ∀ l : List Char, List.dropWhile p l ≠ [] →
      (List.dropWhile p l).getLast? = l.getLast?
  | [], h => absurd rfl h
  | a :: l, h => by
    by_cases ha : p a
    · rw [List.dropWhile_cons, if_pos ha] at h ⊢
      have hl : l ≠ [] := by
        intro he
        subst he
        simp [List.dropWhile] at h
      rw [getLast?_dropWhile p l h]
      cases l with
      | nil => exact absurd rfl hl
      | cons b m => rw [List.getLast?_cons_cons]
    · rw [List.dropWhile_cons, if_neg ha]

/-- Members of the trimmed list are members of the original. -/
theorem mem_goTrim (l : List Char) (c : Char) (h : c ∈ goTrim l) : c ∈ l := by
  unfold goTrim at h
  rw [List.mem_reverse] at h
  have h2 := (List.dropWhile_sublist isTrimChar).subset h
  rw [List.mem_reverse] at h2
  exact (List.dropWhile_sublist isTrimChar).subset h2

/-- `dropWhile` preserves chains. -/
theorem chain_dropWhile {R : Char → Char → Prop} (p : Char → Bool) :
    ∀ l : List Char, List.Chain' R l → List.Chain' R (l.dropWhile p)
  | [], h => h
  | a :: l, h => by
    by_cases ha : p a
    · rw [List.dropWhile_cons, if_pos ha]
      exact chain_dropWhile p l h.tail
    · rw [List.dropWhile_cons, if_neg ha]
      exact h

/-- Trimming preserves chains whose relation is symmetric. -/
theorem chain_goTrim {R : Char → Char → Prop} (hsymm : ∀ a b, R a b → R b a)
    (l : List Char) (h : List.Chain' R l) : List.Chain' R (goTrim l) := by
  unfold goTrim
  rw [List.chain'_reverse]
  apply List.Chain'.imp (fun a b hab => hsymm a b hab)
  apply chain_dropWhile
  rw [List.chain'_reverse]
  apply List.Chain'.imp (fun a b hab => hsymm a b hab)
  exact chain_dropWhile isTrimChar l h

/-- The first character of a trimmed list is not a trim character. -/
theorem goTrim_head? (l : List Char) :
    ∀ c, (goTrim l).head? = some c → isTrimChar c = false := by
  intro c hc
  unfold goTrim at hc
  rw [List.head?_reverse] at hc
  have hY : List.dropWhile isTrimChar (l.dropWhile isTrimChar).reverse ≠ [] := by
    intro h0
    rw [h0] at hc
    exact Option.noConfusion hc
  rw [getLast?_dropWhile _ _ hY, List.getLast?_reverse] at hc
  exact head?_dropWhile_false _ _ _ hc

/-- The last character of a trimmed list is not a trim character. -/
theorem goTrim_getLast? (l : List Char) :
    ∀ c, (goTrim l).getLast? = some c → isTrimChar c = false := by
  intro c hc
  unfold goTrim at hc
  rw [List.getLast?_reverse] at hc
  exact head?_dropWhile_false _ _ _ hc

/-- Trimming is the identity when neither end is a trim character. -/
theorem goTrim_eq_self (l : List Char)
    (h1 : ∀ c, l.head? = some c → isTrimChar c = false)
    (h2 : ∀ c, l.getLast? = some c → isTrimChar c = false) :
    goTrim l = l := by
  have hd : l.dropWhile isTrimChar = l := by
    cases l with
    | nil => rfl
    | cons c cs =>
      rw [List.dropWhile_cons, if_neg (by simp [h1 c rfl])]
  unfold goTrim
  rw [hd]
  have hd2 : l.reverse.dropWhile isTrimChar = l.reverse := by
    cases hrev : l.reverse with
    | nil => rfl
    | cons c cs =>
      have hlast : l.getLast? = some c := by
        rw [← List.head?_reverse, hrev, List.head?_cons]
      rw [List.dropWhile_cons, if_neg (by simp [h2 c hlast])]
  rw [hd2, List.reverse_reverse]

/-- `goToLower` fixes every slug character that is not a space (lowercase
letters, digits, hyphen). -/
theorem goToLower_fixed (c : Char) (h1 : isSlugChar c = true)
    (h2 : isSpaceChar c = false) : goToLower c = c := by
  simp only [isSlugChar, Bool.or_eq_true, decide_eq_true_eq, beq_iff_eq] at h1
  rcases h1 with ((hl | hd) | hsp) | hhy
  · unfold goToLower
    rw [if_neg (by omega), if_neg (by omega), if_neg (by omega)]
  · unfold goToLower
    rw [if_neg (by omega), if_neg (by omega), if_neg (by omega)]
  · subst hsp
    simp [isSpaceChar] at h2
  · subst hhy
    decide

/-- A map whose function fixes every member is the identity. -/
theorem map_id_of_fixed (f : Char → Char) :
    ∀ l : List Char, (∀ c ∈ l, f c = c) → l.map f = l
  | [], _ => rfl
  | c :: l, h => by
    rw [List.map_cons, h c (List.mem_cons_self c l),
      map_id_of_fixed f l (fun x hx => h x (List.mem_cons_of_mem c hx))]

/-- Every character of a slug is a slug character other than space. -/
theorem slugify_chars (t : List Char) :
    ∀ c ∈ Slugify t, isSlugChar c = true ∧ isSpaceChar c = false := by
  intro c hc
  have hc3 := mem_goTrim _ c hc
  rcases mem_collapseRuns isHyphenChar '-' _ c hc3 with rfl | ⟨hc2, _⟩
  · exact ⟨by decide, by decide⟩
  · rcases mem_collapseRuns isSpaceChar '-' _ c hc2 with rfl | ⟨hc1, hns⟩
    · exact ⟨by decide, by decide⟩
    · exact ⟨(List.mem_filter.mp hc1).2, hns⟩

/-- A slug has no two adjacent hyphens. -/
theorem slugify_chain (t : List Char) :
    List.Chain' (fun a b => ¬(isHyphenChar a = true ∧ isHyphenChar b = true))
      (Slugify t) := by
  unfold Slugify
  apply chain_goTrim (fun a b hab => by tauto)
  exact chain_collapseRuns isHyphenChar '-' _

/-- Applying the slug pipeline to an already produced slug changes
nothing. -/
theorem slugify_idem_list (t : List Char) : Slugify (Slugify t) = Slugify t := by
  have hchars := slugify_chars t
  have hchain := slugify_chain t
  have hhead : ∀ c, (Slugify t).head? = some c → isTrimChar c = false :=
    fun c hc => goTrim_head? _ c hc
  have hlast : ∀ c, (Slugify t).getLast? = some c → isTrimChar c = false :=
    fun c hc => goTrim_getLast? _ c hc
  have hmap : (Slugify t).map goToLower = Slugify t :=
    map_id_of_fixed _ _ (fun c hc => goToLower_fixed c (hchars c hc).1 (hchars c hc).2)
  have hfil : (Slugify t).filter isSlugChar = Slugify t :=
    List.filter_eq_self.mpr (fun c hc => (hchars c hc).1)
  have hsp : collapseRuns isSpaceChar '-' (Slugify t) = Slugify t :=
    collapseRuns_eq_self _ _ _ (fun c hc => (hchars c hc).2)
  have hhy : collapseRuns isHyphenChar '-' (Slugify t) = Slugify t :=
    collapseRuns_eq_self_of_nodouble _ _ (fun c h => beq_iff_eq.mp h) _ hchain
  have htr : goTrim (Slugify t) = Slugify t := goTrim_eq_self _ hhead hlast
  conv_lhs => rw [Slugify]
  rw [hmap, hfil, hsp, hhy, htr]

/-- C9: `Slugify` is idempotent — a slug used as a title re-derives
itself. -/
theorem C9_slugify_idempotent :
    ∀ t : String, SlugifyStr (SlugifyStr t) = SlugifyStr t := by
  intro t
  unfold SlugifyStr
  congr 1
  show Slugify (Slugify t.data) = Slugify t.data
  exact slugify_idem_list t.data
